import Mathlib

/-!
Verification of the surface-normal core of the pmp library
(`src/pmp/algorithms/SurfaceNormals.cpp`), shallowly embedded in Lean.

Scalars (`pmp::Scalar`, a floating-point type) are idealized as real
numbers; the numeric guard `denom > std::numeric_limits<Scalar>::min()`
becomes `0 < denom`.  Mesh element handles are natural numbers and the
halfedge connectivity is a record of total functions; the do-while ring
walks of the C++ code become fuel-bounded recursions, where the fuel is
the number of halfedges of the mesh (an upper bound for the length of any
simple ring walk).
-/

/-- A 3-component real vector, embedding pmp `Point` / `Normal`. -/
@[ext]
structure Vec3 where
  x : ℝ
  y : ℝ
  z : ℝ

instance : Zero Vec3 := ⟨⟨0, 0, 0⟩⟩

instance : Add Vec3 := ⟨fun a b => ⟨a.x + b.x, a.y + b.y, a.z + b.z⟩⟩

instance : Neg Vec3 := ⟨fun a => ⟨-a.x, -a.y, -a.z⟩⟩

instance : Sub Vec3 := ⟨fun a b => ⟨a.x - b.x, a.y - b.y, a.z - b.z⟩⟩

instance : SMul ℝ Vec3 := ⟨fun c a => ⟨c * a.x, c * a.y, c * a.z⟩⟩

namespace Vec3

/-- pmp `dot`. -/
def dot (a b : Vec3) : ℝ := a.x * b.x + a.y * b.y + a.z * b.z

/-- pmp `cross`. -/
def cross (a b : Vec3) : Vec3 :=
  ⟨a.y * b.z - a.z * b.y, a.z * b.x - a.x * b.z, a.x * b.y - a.y * b.x⟩

/-- pmp `norm`: Euclidean length. -/
noncomputable def norm (v : Vec3) : ℝ := Real.sqrt (dot v v)

/-- Modelled from the spec: pmp `normalize` (the vector primitives are an
external collaborator, outside `src/`); per the spec, "normalizing the zero
vector yields the zero vector", otherwise the vector is divided by its
length. -/
noncomputable def normalize (v : Vec3) : Vec3 :=
  if 0 < norm v then (1 / norm v) • v else 0

end Vec3

/-- Sum of a list of vectors. -/
def vsum : List Vec3 → Vec3
  | [] => 0
  | v :: t => v + vsum t

/-- Modelled from the spec: the halfedge mesh collaborator (`SurfaceMesh`),
an external component outside `src/`.  Connectivity is given by total
functions on `Nat` handles; `vhalfedge v = none` models an isolated vertex
whose outgoing halfedge handle is invalid; `hboundary` is the boundary flag
of a halfedge; `nh` is the number of halfedges (used as walk fuel);
`verts` and `faces` are the native iteration orders of the element
enumerations. -/
structure SurfaceMesh where
  nh : Nat
  next : Nat → Nat
  prev : Nat → Nat
  opp : Nat → Nat
  to_vertex : Nat → Nat
  vhalfedge : Nat → Option Nat
  fhalfedge : Nat → Nat
  hface : Nat → Nat
  hboundary : Nat → Bool
  pos : Nat → Vec3
  verts : List Nat
  faces : List Nat

namespace SurfaceMesh

/-- Modelled from the spec: pmp `from_vertex(h)`, the origin vertex of a
halfedge, which is the "to" vertex of its opposite halfedge. -/
def from_vertex (m : SurfaceMesh) (h : Nat) : Nat := m.to_vertex (m.opp h)

/-- Modelled from the spec: pmp `cw_rotated_halfedge(h)`, the halfedge
rotated clockwise around the start vertex of `h`; it is the next halfedge
of the opposite halfedge of `h`. -/
def cw_rotated_halfedge (m : SurfaceMesh) (h : Nat) : Nat := m.next (m.opp h)

end SurfaceMesh

/-- The do-while ring walk as a list: visit `h`, advance with `step`, and
stop as soon as the walk returns to the start halfedge `h0`. -/
def cycleFrom (step : Nat → Nat) : Nat → Nat → Nat → List Nat
  | 0, _, _ => []
  | fuel + 1, h0, h => h :: (if step h = h0 then [] else cycleFrom step fuel h0 (step h))

/-- The accumulating do-while loop shared by the vertex- and corner-normal
computations: run `body` on the current halfedge and accumulator, advance
with `step`, stop on return to `hend`. -/
def walkAccum (step : Nat → Nat) (body : Nat → Vec3 → Vec3) : Nat → Nat → Nat → Vec3 → Vec3
  | 0, _, _, nn => nn
  | fuel + 1, hend, h, nn =>
    let nn2 := body h nn
    let h2 := step h
    if h2 = hend then nn2 else walkAccum step body fuel hend h2 nn2

/-- Loop body of `SurfaceNormals::compute_vertex_normal`
(SurfaceNormals.cpp lines 33-64): skip boundary halfedges, guard the
edge-length product, clamp the cosine before `acos`, guard the cross
product norm, then accumulate the angle-weighted corner normal. -/
noncomputable def vnBody (m : SurfaceMesh) (p0 : Vec3) (h : Nat) (nn : Vec3) : Vec3 :=
  if m.hboundary h then nn
  else
    let p1 := m.pos (m.to_vertex h) - p0
    let p2 := m.pos (m.from_vertex (m.prev h)) - p0
    let denom := Real.sqrt (Vec3.dot p1 p1 * Vec3.dot p2 p2)
    if 0 < denom then
      let cosine := Vec3.dot p1 p2 / denom
      let cosine2 := if cosine < -1 then -1 else if 1 < cosine then 1 else cosine
      let angle := Real.arccos cosine2
      let n := Vec3.cross p1 p2
      let denom2 := Vec3.norm n
      if 0 < denom2 then nn + (angle / denom2) • n else nn
    else nn

/-- `SurfaceNormals::compute_vertex_normal` (SurfaceNormals.cpp lines
18-73): zero for an isolated vertex, otherwise the normalized sum of the
angle-weighted corner normals collected by rotating clockwise around the
vertex, from the start halfedge back to itself. -/
noncomputable def compute_vertex_normal (m : SurfaceMesh) (v : Nat) : Vec3 :=
  match m.vhalfedge v with
  | none => 0
  | some h =>
    Vec3.normalize (walkAccum m.cw_rotated_halfedge (vnBody m (m.pos v)) m.nh h h 0)

/-- General-polygon accumulation loop of `SurfaceNormals::compute_face_normal`
(SurfaceNormals.cpp lines 99-106): slide a 3-vertex window around the face,
accumulating `cross (p2 - p1) (p0 - p1)`. -/
def newellGo (m : SurfaceMesh) : Nat → Nat → Nat → Vec3 → Vec3 → Vec3 → Vec3 → Vec3
  | 0, _, _, _, _, _, acc => acc
  | fuel + 1, hend, h, p0, p1, p2, acc =>
    let acc2 := acc + Vec3.cross (p2 - p1) (p0 - p1)
    let h2 := m.next h
    if h2 = hend then acc2
    else newellGo m fuel hend h2 p1 p2 (m.pos (m.to_vertex h2)) acc2

/-- `SurfaceNormals::compute_face_normal` (SurfaceNormals.cpp lines
77-110): triangle fast path, else the normalized Newell sliding-window
sum over the whole face boundary. -/
noncomputable def compute_face_normal (m : SurfaceMesh) (f : Nat) : Vec3 :=
  let h := m.fhalfedge f
  let p0 := m.pos (m.to_vertex h)
  let h1 := m.next h
  let p1 := m.pos (m.to_vertex h1)
  let h2 := m.next h1
  let p2 := m.pos (m.to_vertex h2)
  if m.next h2 = h then Vec3.normalize (Vec3.cross (p2 - p1) (p0 - p1))
  else Vec3.normalize (newellGo m m.nh h2 h2 p0 p1 p2 0)

/-- Loop body of `SurfaceNormals::compute_corner_normal`
(SurfaceNormals.cpp lines 149-185): skip boundary halfedges, guard the
cross-product norm, normalize the candidate face normal, test it against
the anchor normal `nf` with the cosine threshold, then guard the
edge-length product, clamp the cosine and accumulate the angle-weighted
unit normal. -/
noncomputable def cnBody (m : SurfaceMesh) (p0 nf : Vec3) (cosCrease : ℝ)
    (h : Nat) (nn : Vec3) : Vec3 :=
  if m.hboundary h then nn
  else
    let p1 := m.pos (m.to_vertex (m.next h)) - p0
    let p2 := m.pos (m.from_vertex h) - p0
    let n := Vec3.cross p1 p2
    let denom := Vec3.norm n
    if 0 < denom then
      let n2 := (1 / denom) • n
      if cosCrease ≤ Vec3.dot n2 nf then
        let denom2 := Real.sqrt (Vec3.dot p1 p1 * Vec3.dot p2 p2)
        if 0 < denom2 then
          let cosine := Vec3.dot p1 p2 / denom2
          let cosine2 := if cosine < -1 then -1 else if 1 < cosine then 1 else cosine
          let angle := Real.arccos cosine2
          nn + angle • n2
        else nn
      else nn
    else nn

/-- `SurfaceNormals::compute_corner_normal` (SurfaceNormals.cpp lines
114-194): trivial shortcut to the face normal below crease angle 0.01 and
to the vertex normal above 179; otherwise clamp the crease angle to at
least 0.001, take its cosine once, return zero on a boundary halfedge, and
otherwise average the incident face contributions that pass the cosine
test against the normal of the halfedge's own face, walking the ring by
the opposite of the next halfedge. -/
noncomputable def compute_corner_normal (m : SurfaceMesh) (h : Nat) (creaseAngle : ℝ) : Vec3 :=
  if creaseAngle < 0.01 then compute_face_normal m (m.hface h)
  else if 179 < creaseAngle then compute_vertex_normal m (m.from_vertex h)
  else
    let ca := if creaseAngle < 0.001 then 0.001 else creaseAngle
    let cosCrease := Real.cos ca
    if m.hboundary h then 0
    else
      let p0 := m.pos (m.to_vertex h)
      let p1 := m.pos (m.to_vertex (m.next h)) - p0
      let p2 := m.pos (m.from_vertex h) - p0
      let nf := Vec3.normalize (Vec3.cross p1 p2)
      Vec3.normalize
        (walkAccum (fun hh => m.opp (m.next hh)) (cnBody m p0 nf cosCrease) m.nh h h 0)

/-- Write one slot of a per-element property map. -/
def setProp (mp : Nat → Vec3) (i : Nat) (val : Vec3) : Nat → Vec3 :=
  fun j => if j = i then val else mp j

/-- `SurfaceNormals::compute_vertex_normals` (SurfaceNormals.cpp lines
198-203): store the vertex normal of every vertex, in iteration order,
into the vertex normal property. -/
noncomputable def compute_vertex_normals (m : SurfaceMesh) (vnormal : Nat → Vec3) : Nat → Vec3 :=
  m.verts.foldl (fun mp v => setProp mp v (compute_vertex_normal m v)) vnormal

/-- `SurfaceNormals::compute_face_normals` (SurfaceNormals.cpp lines
207-212): store the face normal of every face, in iteration order, into
the face normal property. -/
noncomputable def compute_face_normals (m : SurfaceMesh) (fnormal : Nat → Vec3) : Nat → Vec3 :=
  m.faces.foldl (fun mp f => setProp mp f (compute_face_normal m f)) fnormal

/-- Clamp a cosine into `[-1, 1]` (the spec's "clamped arccosine"). -/
noncomputable def clampCos (c : ℝ) : ℝ := if c < -1 then -1 else if 1 < c then 1 else c

/-- Spec 4.1, one ring contribution stated as in the claim: for a
non-boundary halfedge, the corner cross product scaled by `angle / |n|`,
where the angle is the arccosine of the clamped cosine, and the
contribution is skipped (zero) when the edge-length product or the
cross-product norm is not positive. -/
noncomputable def vnContrib (m : SurfaceMesh) (p0 : Vec3) (h : Nat) : Vec3 :=
  if m.hboundary h then 0
  else
    let p1 := m.pos (m.to_vertex h) - p0
    let p2 := m.pos (m.from_vertex (m.prev h)) - p0
    let lenProd := Real.sqrt (Vec3.dot p1 p1 * Vec3.dot p2 p2)
    let n := Vec3.cross p1 p2
    if 0 < lenProd ∧ 0 < Vec3.norm n then
      (Real.arccos (clampCos (Vec3.dot p1 p2 / lenProd)) / Vec3.norm n) • n
    else 0

/-- Spec 4.1: the full ring of halfedges around a vertex, rotating
clockwise, from the start halfedge back to itself. -/
def vertexRing (m : SurfaceMesh) (h : Nat) : List Nat :=
  cycleFrom m.cw_rotated_halfedge m.nh h h

/-- The per-vertex normal as the claim states it (claim C4): zero for a
vertex with no outgoing halfedge, else the normalized sum of the per-ring
contributions. -/
noncomputable def specVertexNormal (m : SurfaceMesh) (v : Nat) : Vec3 :=
  match m.vhalfedge v with
  | none => 0
  | some h => Vec3.normalize (vsum ((vertexRing m h).map (vnContrib m (m.pos v))))

/-- Spec 4.3: the ring of halfedges around the corner, rotating by the
opposite of the next halfedge, from the start halfedge back to itself. -/
def cornerRing (m : SurfaceMesh) (h : Nat) : List Nat :=
  cycleFrom (fun hh => m.opp (m.next hh)) m.nh h h

/-- Spec 4.3, one candidate contribution as the claim states it (claim
C7): a non-boundary candidate contributes its angle-weighted unit corner
normal exactly when the dot product of that unit normal with the fixed
anchor normal `nf` is at least the cosine threshold, with the same
near-zero guards and cosine clamping as the vertex normal. -/
noncomputable def cnContrib (m : SurfaceMesh) (p0 nf : Vec3) (cosCrease : ℝ) (h : Nat) : Vec3 :=
  if m.hboundary h then 0
  else
    let p1 := m.pos (m.to_vertex (m.next h)) - p0
    let p2 := m.pos (m.from_vertex h) - p0
    let n := Vec3.cross p1 p2
    let lenProd := Real.sqrt (Vec3.dot p1 p1 * Vec3.dot p2 p2)
    if 0 < Vec3.norm n ∧ cosCrease ≤ Vec3.dot ((1 / Vec3.norm n) • n) nf ∧ 0 < lenProd then
      Real.arccos (clampCos (Vec3.dot p1 p2 / lenProd)) • ((1 / Vec3.norm n) • n)
    else 0

/-- The general-range per-corner normal as the claim states it (claim C7):
zero on a boundary halfedge, else the normalized sum over the corner ring
of the anchor-gated contributions, the anchor being the normal of the
halfedge's own face and the threshold being the cosine of the crease
angle. -/
noncomputable def specCornerNormal (m : SurfaceMesh) (h : Nat) (creaseAngle : ℝ) : Vec3 :=
  if m.hboundary h then 0
  else
    let p0 := m.pos (m.to_vertex h)
    let p1 := m.pos (m.to_vertex (m.next h)) - p0
    let p2 := m.pos (m.from_vertex h) - p0
    let nf := Vec3.normalize (Vec3.cross p1 p2)
    Vec3.normalize
      (vsum ((cornerRing m h).map (cnContrib m p0 nf (Real.cos creaseAngle))))

/-- Sum `f t + f (t+1) + ... + f (t+r-1)`. -/
def rangeSum (f : Nat → Vec3) : Nat → Nat → Vec3
  | 0, _ => 0
  | r + 1, t => f t + rangeSum f r (t + 1)

/-- One sliding-window (Newell) term of the general-polygon face normal,
for the window centered at cyclic index `i + 1` of the position list. -/
def newellTerm (ps : List Vec3) (i : Nat) : Vec3 :=
  Vec3.cross (ps.getD ((i + 2) % ps.length) 0 - ps.getD ((i + 1) % ps.length) 0)
    (ps.getD (i % ps.length) 0 - ps.getD ((i + 1) % ps.length) 0)

/-- The full Newell sum over all windows of the polygon. -/
def newellSum (ps : List Vec3) : Vec3 := rangeSum (newellTerm ps) ps.length 0

/-- One fan-triangulation term: the cross product of the triangle
`(p 0, p i, p (i+1))`. -/
def fanTerm (ps : List Vec3) (i : Nat) : Vec3 :=
  Vec3.cross (ps.getD i 0 - ps.getD 0 0) (ps.getD (i + 1) 0 - ps.getD 0 0)

/-- The fan-triangulated polygon normal sum (claim C6's comparison
object): triangles `(p 0, p i, p (i+1))` for `i = 1 .. len - 2`. -/
def fanSum (ps : List Vec3) : Vec3 := rangeSum (fanTerm ps) (ps.length - 2) 1

/-- A single-face polygon mesh over a list of vertex positions: halfedge
`i` points to vertex `i`, and the face cycle is `0, 1, ..., len - 1`. -/
def polyMesh (ps : List Vec3) : SurfaceMesh where
  nh := ps.length
  next := fun h => (h + 1) % ps.length
  prev := fun h => (h + ps.length - 1) % ps.length
  opp := fun h => h
  to_vertex := fun h => h
  vhalfedge := fun v => some v
  fhalfedge := fun _ => 0
  hface := fun _ => 0
  hboundary := fun _ => false
  pos := fun v => ps.getD v 0
  verts := List.range ps.length
  faces := [0]

/-- Next halfedge of the unit cube mesh: halfedges `4f .. 4f+3` cycle
around face `f`. -/
def cubeNext (h : Nat) : Nat := 4 * (h / 4) + ((h % 4 + 1) % 4)

/-- Previous halfedge of the unit cube mesh. -/
def cubePrev (h : Nat) : Nat := 4 * (h / 4) + ((h % 4 + 3) % 4)

/-- Opposite-halfedge table of the unit cube mesh. -/
def cubeOpp (h : Nat) : Nat :=
  [9, 21, 17, 13, 23, 11, 15, 19, 22, 0, 12, 5, 10, 3, 16, 6, 14, 2, 20, 7, 18, 1, 8, 4].getD h 0

/-- To-vertex table of the unit cube mesh, from the face vertex lists
bottom `[0,3,2,1]`, top `[4,5,6,7]`, front `[0,1,5,4]`, right `[1,2,6,5]`,
back `[2,3,7,6]`, left `[3,0,4,7]`. -/
def cubeToV (h : Nat) : Nat :=
  [0, 3, 2, 1, 4, 5, 6, 7, 0, 1, 5, 4, 1, 2, 6, 5, 2, 3, 7, 6, 3, 0, 4, 7].getD h 0

/-- An outgoing halfedge for each vertex of the unit cube mesh. -/
def cubeVh (v : Nat) : Option Nat := some ([9, 13, 17, 2, 5, 6, 7, 4].getD v 0)

/-- Vertex positions of the unit cube. -/
def cubePos (v : Nat) : Vec3 :=
  ([⟨0, 0, 0⟩, ⟨1, 0, 0⟩, ⟨1, 1, 0⟩, ⟨0, 1, 0⟩,
    ⟨0, 0, 1⟩, ⟨1, 0, 1⟩, ⟨1, 1, 1⟩, ⟨0, 1, 1⟩] : List Vec3).getD v 0

/-- The closed unit cube mesh: 8 vertices, 6 outward-oriented quad faces,
24 halfedges, no boundary.  All dihedral angles are 90 degrees. -/
def cubeMesh : SurfaceMesh where
  nh := 24
  next := cubeNext
  prev := cubePrev
  opp := cubeOpp
  to_vertex := cubeToV
  vhalfedge := cubeVh
  fhalfedge := fun f => 4 * f
  hface := fun h => h / 4
  hboundary := fun _ => false
  pos := cubePos
  verts := [0, 1, 2, 3, 4, 5, 6, 7]
  faces := [0, 1, 2, 3, 4, 5]

/-- A single triangle with a boundary loop: halfedges `0, 1, 2` belong to
face `0`, halfedges `3, 4, 5` are their boundary opposites.  The face
handle stored for a boundary halfedge models the junk read through pmp's
invalid face handle. -/
def bndMesh : SurfaceMesh where
  nh := 6
  next := fun h => [1, 2, 0, 5, 3, 4].getD h 0
  prev := fun h => [2, 0, 1, 4, 5, 3].getD h 0
  opp := fun h => [3, 4, 5, 0, 1, 2].getD h 0
  to_vertex := fun h => [1, 2, 0, 0, 1, 2].getD h 0
  vhalfedge := fun v => some ([0, 1, 2].getD v 0)
  fhalfedge := fun _ => 0
  hface := fun _ => 0
  hboundary := fun h => decide (3 ≤ h)
  pos := fun v => ([⟨0, 0, 0⟩, ⟨1, 0, 0⟩, ⟨0, 1, 0⟩] : List Vec3).getD v 0
  verts := [0, 1, 2]
  faces := [0]

namespace Vec3

@[simp] lemma zero_x : (0 : Vec3).x = 0 := rfl

@[simp] lemma zero_y : (0 : Vec3).y = 0 := rfl

@[simp] lemma zero_z : (0 : Vec3).z = 0 := rfl

@[simp] lemma add_x (a b : Vec3) : (a + b).x = a.x + b.x := rfl

@[simp] lemma add_y (a b : Vec3) : (a + b).y = a.y + b.y := rfl

@[simp] lemma add_z (a b : Vec3) : (a + b).z = a.z + b.z := rfl

@[simp] lemma sub_x (a b : Vec3) : (a - b).x = a.x - b.x := rfl

@[simp] lemma sub_y (a b : Vec3) : (a - b).y = a.y - b.y := rfl

@[simp] lemma sub_z (a b : Vec3) : (a - b).z = a.z - b.z := rfl

@[simp] lemma neg_x (a : Vec3) : (-a).x = -a.x := rfl

@[simp] lemma neg_y (a : Vec3) : (-a).y = -a.y := rfl

@[simp] lemma neg_z (a : Vec3) : (-a).z = -a.z := rfl

@[simp] lemma smul_x (c : ℝ) (a : Vec3) : (c • a).x = c * a.x := rfl

@[simp] lemma smul_y (c : ℝ) (a : Vec3) : (c • a).y = c * a.y := rfl

@[simp] lemma smul_z (c : ℝ) (a : Vec3) : (c • a).z = c * a.z := rfl

@[simp] lemma mk_x (a b c : ℝ) : (Vec3.mk a b c).x = a := rfl

@[simp] lemma mk_y (a b c : ℝ) : (Vec3.mk a b c).y = b := rfl

@[simp] lemma mk_z (a b c : ℝ) : (Vec3.mk a b c).z = c := rfl

lemma addZero (v : Vec3) : v + 0 = v := by ext <;> simp

lemma zeroAdd (v : Vec3) : 0 + v = v := by ext <;> simp

lemma addAssoc (a b c : Vec3) : a + b + c = a + (b + c) := by ext <;> simp <;> ring

lemma negZero : -(0 : Vec3) = 0 := by ext <;> simp

lemma smulSmul (a b : ℝ) (v : Vec3) : a • (b • v) = (a * b) • v := by
  ext <;> simp <;> ring

lemma oneSmul (v : Vec3) : (1 : ℝ) • v = v := by ext <;> simp

lemma zeroSmul (v : Vec3) : (0 : ℝ) • v = 0 := by ext <;> simp

lemma addSmul (a b : ℝ) (v : Vec3) : (a + b) • v = a • v + b • v := by
  ext <;> simp <;> ring

lemma smulNeg (c : ℝ) (v : Vec3) : c • (-v) = -(c • v) := by ext <;> simp

lemma dotComm (a b : Vec3) : dot a b = dot b a := by simp [dot]; ring

lemma dotZeroLeft (b : Vec3) : dot 0 b = 0 := by simp [dot]

lemma dotAddLeft (a b c : Vec3) : dot (a + b) c = dot a c + dot b c := by
  simp [dot]; ring

lemma dotSubLeft (a b c : Vec3) : dot (a - b) c = dot a c - dot b c := by
  simp [dot]; ring

lemma dotSmulLeft (c : ℝ) (a b : Vec3) : dot (c • a) b = c * dot a b := by
  simp [dot]; ring

lemma dotSelfNonneg (v : Vec3) : 0 ≤ dot v v := by
  simp only [dot]
  nlinarith [sq_nonneg v.x, sq_nonneg v.y, sq_nonneg v.z]

lemma normNonneg (v : Vec3) : 0 ≤ norm v := Real.sqrt_nonneg _

lemma dotNegNeg (v : Vec3) : dot (-v) (-v) = dot v v := by
  simp only [dot, neg_x, neg_y, neg_z]; ring

lemma normNeg (v : Vec3) : norm (-v) = norm v := by
  simp only [norm, dotNegNeg]

lemma normSmul (c : ℝ) (v : Vec3) : norm (c • v) = |c| * norm v := by
  have h1 : dot (c • v) (c • v) = c ^ 2 * dot v v := by
    simp only [dot, smul_x, smul_y, smul_z]; ring
  simp only [norm, h1]
  rw [Real.sqrt_mul (sq_nonneg c), Real.sqrt_sq_eq_abs]

lemma normOfDotOne {v : Vec3} (h : dot v v = 1) : norm v = 1 := by
  simp only [norm, h, Real.sqrt_one]

lemma normalizeCases (v : Vec3) : normalize v = 0 ∨ norm (normalize v) = 1 := by
  by_cases h : 0 < norm v
  · right
    rw [normalize, if_pos h, normSmul, abs_of_pos (by positivity : (0:ℝ) < 1 / norm v)]
    field_simp
  · left
    rw [normalize, if_neg h]

lemma normalizeSmulPos {c : ℝ} {v : Vec3} (hc : 0 < c) (hv : dot v v = 1) :
    normalize (c • v) = v := by
  have hn : norm (c • v) = c := by
    rw [normSmul, normOfDotOne hv, abs_of_pos hc, mul_one]
  rw [normalize, hn, if_pos hc, smulSmul, one_div, inv_mul_cancel₀ (ne_of_gt hc), oneSmul]

lemma normalizeNeg (v : Vec3) : normalize (-v) = -(normalize v) := by
  rw [normalize, normalize, normNeg]
  by_cases h : 0 < norm v
  · rw [if_pos h, if_pos h, smulNeg]
  · rw [if_neg h, if_neg h, negZero]

lemma subSelf (v : Vec3) : v - v = 0 := by ext <;> simp

lemma crossZeroRight (a : Vec3) : cross a 0 = 0 := by
  ext <;> simp [cross]

lemma crossCrossLeft (a b c : Vec3) :
    cross (cross a b) c = (dot a c) • b - (dot b c) • a := by
  ext <;> simp [cross, dot] <;> ring

lemma crossCrossRight (a b c : Vec3) :
    cross a (cross b c) = (dot a c) • b - (dot a b) • c := by
  ext <;> simp [cross, dot] <;> ring

lemma eqOfSubEqZero {a b : Vec3} (h : a - b = 0) : a = b := by
  ext
  · have := congrArg Vec3.x h; simp at this; linarith
  · have := congrArg Vec3.y h; simp at this; linarith
  · have := congrArg Vec3.z h; simp at this; linarith

lemma planarCross {u w nu : Vec3} (hu : dot u nu = 0) (hw : dot w nu = 0)
    (hnu : dot nu nu = 1) : cross u w = (dot (cross u w) nu) • nu := by
  have h1 : cross (cross u w) nu = 0 := by
    rw [crossCrossLeft, hu, hw, zeroSmul, zeroSmul]
    exact subSelf 0
  have h2 : cross nu (cross (cross u w) nu) =
      (dot nu nu) • cross u w - (dot nu (cross u w)) • nu := crossCrossRight _ _ _
  rw [h1, crossZeroRight] at h2
  rw [hnu, oneSmul] at h2
  have h3 := eqOfSubEqZero h2.symm
  rw [dotComm (cross u w) nu]
  exact h3

end Vec3

lemma vsumNil : vsum [] = 0 := rfl

lemma vsumCons (v : Vec3) (t : List Vec3) : vsum (v :: t) = v + vsum t := rfl

/-- The accumulating do-while loop is the start value plus the sum of the
per-halfedge contributions over the ring list, provided the body adds one
contribution per visit. -/
lemma walkAccumEqSum (step : Nat → Nat) (body : Nat → Vec3 → Vec3)
    (contrib : Nat → Vec3) (hbc : ∀ h nn, body h nn = nn + contrib h) :
    ∀ (fuel h0 h : Nat) (nn : Vec3),
      walkAccum step body fuel h0 h nn = nn + vsum ((cycleFrom step fuel h0 h).map contrib) := by
  intro fuel
  induction fuel with
  | zero => intro h0 h nn; simp [walkAccum, cycleFrom, vsumNil, Vec3.addZero]
  | succ fuel ih =>
    intro h0 h nn
    by_cases hst : step h = h0
    · simp only [walkAccum, cycleFrom, hst, if_pos rfl, hbc]
      simp [vsumCons, vsumNil, Vec3.addZero]
    · simp only [walkAccum, cycleFrom, if_neg hst, hbc, ih]
      simp [vsumCons, Vec3.addAssoc]

/-- Two nested accumulation guards collapse to one conjunctive guard on
the added contribution. -/
lemma iteTwoGuards (p q : Prop) [Decidable p] [Decidable q] (nn e : Vec3) :
    (if p then (if q then nn + e else nn) else nn) = nn + (if p ∧ q then e else 0) := by
  by_cases hp : p <;> by_cases hq : q <;> simp [hp, hq, Vec3.addZero]

/-- Three nested accumulation guards collapse to one conjunctive guard on
the added contribution. -/
lemma iteThreeGuards (p q r : Prop) [Decidable p] [Decidable q] [Decidable r] (nn e : Vec3) :
    (if p then (if q then (if r then nn + e else nn) else nn) else nn) =
      nn + (if p ∧ q ∧ r then e else 0) := by
  by_cases hp : p <;> by_cases hq : q <;> by_cases hr : r <;> simp [hp, hq, hr, Vec3.addZero]

/-- The vertex-normal loop body adds exactly the spec contribution. -/
lemma vnBodyContrib (m : SurfaceMesh) (p0 : Vec3) (h : Nat) (nn : Vec3) :
    vnBody m p0 h nn = nn + vnContrib m p0 h := by
  simp only [vnBody, vnContrib, clampCos]
  by_cases hb : m.hboundary h = true
  · simp [hb, Vec3.addZero]
  · simp only [hb, if_false, Bool.false_eq_true]
    exact iteTwoGuards _ _ _ _

/-- The corner-normal loop body adds exactly the spec contribution. -/
lemma cnBodyContrib (m : SurfaceMesh) (p0 nf : Vec3) (cc : ℝ) (h : Nat) (nn : Vec3) :
    cnBody m p0 nf cc h nn = nn + cnContrib m p0 nf cc h := by
  simp only [cnBody, cnContrib, clampCos]
  by_cases hb : m.hboundary h = true
  · simp [hb, Vec3.addZero]
  · simp only [hb, if_false, Bool.false_eq_true]
    exact iteThreeGuards _ _ _ _ _

/-- Every vertex normal is the zero vector or a unit vector. -/
lemma vnCases (m : SurfaceMesh) (v : Nat) :
    compute_vertex_normal m v = 0 ∨ Vec3.norm (compute_vertex_normal m v) = 1 := by
  rcases hv : m.vhalfedge v with _ | h <;> simp only [compute_vertex_normal, hv]
  · exact Or.inl trivial
  · exact Vec3.normalizeCases _

/-- Every face normal is the zero vector or a unit vector. -/
lemma fnCases (m : SurfaceMesh) (f : Nat) :
    compute_face_normal m f = 0 ∨ Vec3.norm (compute_face_normal m f) = 1 := by
  simp only [compute_face_normal]
  split_ifs <;> exact Vec3.normalizeCases _

/-- Every corner normal is the zero vector or a unit vector. -/
lemma cnCases (m : SurfaceMesh) (h : Nat) (c : ℝ) :
    compute_corner_normal m h c = 0 ∨ Vec3.norm (compute_corner_normal m h c) = 1 := by
  simp only [compute_corner_normal]
  split_ifs <;>
    first
    | exact fnCases m (m.hface h)
    | exact vnCases m (m.from_vertex h)
    | exact Or.inl rfl
    | exact Vec3.normalizeCases _

/-- Below the 0.01 crease threshold the corner normal is the face normal
of the stored face handle, whatever the halfedge. -/
lemma cornerLow (m : SurfaceMesh) (h : Nat) {c : ℝ} (hc : c < 0.01) :
    compute_corner_normal m h c = compute_face_normal m (m.hface h) := by
  simp only [compute_corner_normal, if_pos hc]

/-- Above the 179 crease threshold the corner normal is the vertex normal
of the origin vertex, whatever the halfedge. -/
lemma cornerHigh (m : SurfaceMesh) (h : Nat) {c : ℝ} (hc : 179 < c) :
    compute_corner_normal m h c = compute_vertex_normal m (m.from_vertex h) := by
  have h1 : ¬ c < 0.01 := by push_neg; linarith
  simp only [compute_corner_normal, if_neg h1, if_pos hc]

/-- Claim C1: for every mesh, every element handle and every crease angle,
each of `compute_vertex_normal`, `compute_face_normal` and
`compute_corner_normal` returns either the zero vector or a vector of unit
length (in the real-number idealization of the floating-point scalars,
where the no-NaN/no-infinity part of the claim is expressed by the
functions being total), including on degenerate input. -/
theorem c1_normals_zero_or_unit :
    ∀ (m : SurfaceMesh) (v f h : Nat) (c : ℝ),
      (compute_vertex_normal m v = 0 ∨ Vec3.norm (compute_vertex_normal m v) = 1) ∧
      (compute_face_normal m f = 0 ∨ Vec3.norm (compute_face_normal m f) = 1) ∧
      (compute_corner_normal m h c = 0 ∨ Vec3.norm (compute_corner_normal m h c) = 1) :=
  fun m v f h c => ⟨vnCases m v, fnCases m f, cnCases m h c⟩

/-- Claim C3: for a non-boundary halfedge, a crease angle strictly below
0.01 makes `compute_corner_normal` return exactly the face normal of the
halfedge's face, and a crease angle strictly above 179 makes it return
exactly the vertex normal at the halfedge's origin vertex. -/
theorem c3_trivial_crease_shortcuts :
    ∀ (m : SurfaceMesh) (h : Nat) (c : ℝ), m.hboundary h = false →
      (c < 0.01 → compute_corner_normal m h c = compute_face_normal m (m.hface h)) ∧
      (179 < c → compute_corner_normal m h c = compute_vertex_normal m (m.from_vertex h)) :=
  fun m h c _ => ⟨fun hc => cornerLow m h hc, fun hc => cornerHigh m h hc⟩

/-- Witness for claim C3 on the cube mesh at crease angles 0.005 and 179.5. -/
theorem c3_trivial_crease_shortcuts_witness :
    compute_corner_normal cubeMesh 0 0.005 = compute_face_normal cubeMesh (cubeMesh.hface 0) ∧
    compute_corner_normal cubeMesh 0 179.5 =
      compute_vertex_normal cubeMesh (cubeMesh.from_vertex 0) :=
  ⟨(c3_trivial_crease_shortcuts cubeMesh 0 0.005 rfl).1 (by norm_num),
   (c3_trivial_crease_shortcuts cubeMesh 0 179.5 rfl).2 (by norm_num)⟩

/-- Claim C4: `compute_vertex_normal` equals the spec description: zero
for a vertex with no outgoing halfedge, else the normalized sum, over the
full clockwise ring from the start halfedge back to itself, of the
angle-weighted (clamped-arccosine, near-zero-guarded) corner cross
products. -/
theorem c4_vertex_normal_matches_spec :
    ∀ (m : SurfaceMesh) (v : Nat), compute_vertex_normal m v = specVertexNormal m v := by
  intro m v
  rcases hv : m.vhalfedge v with _ | h <;>
    simp only [compute_vertex_normal, specVertexNormal, hv]
  rw [walkAccumEqSum m.cw_rotated_halfedge (vnBody m (m.pos v)) (vnContrib m (m.pos v))
    (vnBodyContrib m (m.pos v)), Vec3.zeroAdd]
  rfl

/-- In the general crease range, `compute_corner_normal` coincides with
the ring-sum form `specCornerNormal`. -/
lemma cornerGeneralEq (m : SurfaceMesh) (h : Nat) (c : ℝ) (h1 : 0.01 ≤ c) (h2 : c ≤ 179) :
    compute_corner_normal m h c = specCornerNormal m h c := by
  have hlow : ¬ c < 0.01 := not_lt.mpr h1
  have hhigh : ¬ 179 < c := not_lt.mpr h2
  have hcl : ¬ c < 0.001 := by push_neg; linarith
  simp only [compute_corner_normal, specCornerNormal, if_neg hlow, if_neg hhigh, if_neg hcl]
  by_cases hb : m.hboundary h = true
  · simp [hb]
  · simp only [hb, if_false, Bool.false_eq_true]
    rw [walkAccumEqSum (fun hh => m.opp (m.next hh)) _ _
      (cnBodyContrib m (m.pos (m.to_vertex h)) _ (Real.cos c)), Vec3.zeroAdd]
    rfl

/-- Claim C7: in the general crease range, `compute_corner_normal` equals
the spec description: zero on a boundary halfedge, else the normalized sum
over the ring walked by opposite-of-next of the contributions gated by the
one-hop cosine test against the fixed anchor face normal. -/
theorem c7_corner_general_matches_spec :
    ∀ (m : SurfaceMesh) (h : Nat) (c : ℝ), 0.01 ≤ c → c ≤ 179 →
      compute_corner_normal m h c = specCornerNormal m h c :=
  fun m h c h1 h2 => cornerGeneralEq m h c h1 h2

/-- Witness for claim C7 on the cube mesh at crease angle 90. -/
theorem c7_corner_general_matches_spec_witness :
    compute_corner_normal cubeMesh 0 90 = specCornerNormal cubeMesh 0 90 :=
  c7_corner_general_matches_spec cubeMesh 0 90 (by norm_num) (by norm_num)

/-- Claim C9: in the general crease range, a boundary halfedge yields the
zero corner normal, independently of the vertex positions (the second
conjunct replaces the whole position table and the result is unchanged,
expressing that no vertex position is read). -/
theorem c9_boundary_corner_zero :
    ∀ (m : SurfaceMesh) (h : Nat) (c : ℝ) (q : Nat → Vec3), 0.01 ≤ c → c ≤ 179 →
      m.hboundary h = true →
      compute_corner_normal m h c = 0 ∧ compute_corner_normal { m with pos := q } h c = 0 := by
  intro m h c q h1 h2 hb
  have hlow : ¬ c < 0.01 := not_lt.mpr h1
  have hhigh : ¬ 179 < c := not_lt.mpr h2
  constructor <;> simp [compute_corner_normal, hlow, hhigh, hb]

/-- Witness for claim C9 on the boundary halfedge 3 of the triangle mesh
at crease angle 90. -/
theorem c9_boundary_corner_zero_witness :
    compute_corner_normal bndMesh 3 90 = 0 :=
  (c9_boundary_corner_zero bndMesh 3 90 (fun _ => 0) (by norm_num) (by norm_num) rfl).1

/-- Folding per-element writes over a list reads back as the written value
on members and the original value elsewhere. -/
lemma foldSetProp (g : Nat → Vec3) :
    ∀ (l : List Nat) (mp : Nat → Vec3) (w : Nat),
      (l.foldl (fun acc v => setProp acc v (g v)) mp) w = if w ∈ l then g w else mp w := by
  intro l
  induction l with
  | nil => intro mp w; simp
  | cons v t ih =>
    intro mp w
    simp only [List.foldl_cons, ih, List.mem_cons]
    by_cases hw : w ∈ t
    · simp [hw]
    · by_cases hv : w = v
      · simp [hw, hv, setProp]
      · simp [hw, hv, setProp]

/-- Slot read-back for the vertex batch driver. -/
lemma computeVertexNormalsAt (m : SurfaceMesh) (vn : Nat → Vec3) (w : Nat) :
    compute_vertex_normals m vn w = if w ∈ m.verts then compute_vertex_normal m w else vn w :=
  foldSetProp (fun v => compute_vertex_normal m v) m.verts vn w

/-- Slot read-back for the face batch driver. -/
lemma computeFaceNormalsAt (m : SurfaceMesh) (fn : Nat → Vec3) (w : Nat) :
    compute_face_normals m fn w = if w ∈ m.faces then compute_face_normal m w else fn w :=
  foldSetProp (fun f => compute_face_normal m f) m.faces fn w

/-- Claim C8: each batch driver stores, for every element in the mesh's
iteration order, exactly the value of the single-element routine on that
element, leaves other slots untouched, and running a driver a second time
on the unchanged mesh changes nothing (idempotence). -/
theorem c8_batch_drivers_pointwise_idempotent :
    ∀ (m : SurfaceMesh) (vn fn : Nat → Vec3) (v f : Nat),
      (v ∈ m.verts → compute_vertex_normals m vn v = compute_vertex_normal m v) ∧
      (f ∈ m.faces → compute_face_normals m fn f = compute_face_normal m f) ∧
      (v ∉ m.verts → compute_vertex_normals m vn v = vn v) ∧
      (f ∉ m.faces → compute_face_normals m fn f = fn f) ∧
      compute_vertex_normals m (compute_vertex_normals m vn) = compute_vertex_normals m vn ∧
      compute_face_normals m (compute_face_normals m fn) = compute_face_normals m fn := by
  intro m vn fn v f
  refine ⟨?_, ?_, ?_, ?_, ?_, ?_⟩
  · intro hv; rw [computeVertexNormalsAt, if_pos hv]
  · intro hf; rw [computeFaceNormalsAt, if_pos hf]
  · intro hv; rw [computeVertexNormalsAt, if_neg hv]
  · intro hf; rw [computeFaceNormalsAt, if_neg hf]
  · funext w
    rw [computeVertexNormalsAt, computeVertexNormalsAt]
    by_cases hw : w ∈ m.verts <;> simp [hw]
  · funext w
    rw [computeFaceNormalsAt, computeFaceNormalsAt]
    by_cases hw : w ∈ m.faces <;> simp [hw]

/-- Witness for claim C8 on the triangle mesh, vertex 0 and face 0. -/
theorem c8_batch_drivers_pointwise_idempotent_witness :
    compute_vertex_normals bndMesh (fun _ => 0) 0 = compute_vertex_normal bndMesh 0 ∧
    compute_face_normals bndMesh (fun _ => 0) 0 = compute_face_normal bndMesh 0 :=
  ⟨(c8_batch_drivers_pointwise_idempotent bndMesh (fun _ => 0) (fun _ => 0) 0 0).1
    (by decide),
   (c8_batch_drivers_pointwise_idempotent bndMesh (fun _ => 0) (fun _ => 0) 0 0).2.1
    (by decide)⟩

/-- Evaluate `normalize` through a known squared length. -/
lemma normalizeEval (v : Vec3) (c : ℝ) (hc : 0 < c) (hd : Vec3.dot v v = c ^ 2) :
    Vec3.normalize v = (1 / c) • v := by
  have hn : Vec3.norm v = c := by rw [Vec3.norm, hd, Real.sqrt_sq hc.le]
  rw [Vec3.normalize, hn, if_pos hc]

/-- The face normal of the triangle mesh with boundary. -/
lemma bndFace : compute_face_normal bndMesh 0 = Vec3.mk 0 0 1 := by
  have h1 : compute_face_normal bndMesh 0 = Vec3.normalize (Vec3.mk 0 0 1) := by
    norm_num [compute_face_normal, bndMesh, Vec3.cross, List.getD]
  rw [h1, normalizeEval _ 1 one_pos (by norm_num [Vec3.dot])]
  ext <;> norm_num

/-- Claim C10: the two trivial crease paths are taken unconditionally,
before the boundary check: for every halfedge, boundary included, crease
below 0.01 calls the face normal of the stored face handle and crease
above 179 calls the vertex normal of the origin vertex; on the boundary
halfedge 3 of the triangle mesh this bypasses the zero-vector-on-boundary
rule and returns a nonzero normal. -/
theorem c10_trivial_paths_bypass_boundary_check :
    (∀ (m : SurfaceMesh) (h : Nat) (c : ℝ), c < 0.01 →
      compute_corner_normal m h c = compute_face_normal m (m.hface h)) ∧
    (∀ (m : SurfaceMesh) (h : Nat) (c : ℝ), 179 < c →
      compute_corner_normal m h c = compute_vertex_normal m (m.from_vertex h)) ∧
    bndMesh.hboundary 3 = true ∧
    compute_corner_normal bndMesh 3 0 ≠ 0 := by
  refine ⟨fun m h c hc => cornerLow m h hc, fun m h c hc => cornerHigh m h hc, rfl, ?_⟩
  rw [cornerLow bndMesh 3 (by norm_num : (0:ℝ) < 0.01)]
  have hf : bndMesh.hface 3 = 0 := rfl
  rw [hf, bndFace]
  intro hE
  have hz := congrArg Vec3.z hE
  norm_num at hz

/-- Witness for claim C10 on the boundary halfedge 3 of the triangle mesh
at crease angle 0. -/
theorem c10_trivial_paths_bypass_boundary_check_witness :
    compute_corner_normal bndMesh 3 0 = compute_face_normal bndMesh (bndMesh.hface 3) ∧
    compute_corner_normal bndMesh 3 0 ≠ 0 :=
  ⟨c10_trivial_paths_bypass_boundary_check.1 bndMesh 3 0 (by norm_num),
   c10_trivial_paths_bypass_boundary_check.2.2.2⟩

/-- The face normal of a one-triangle polygon mesh in closed form. -/
lemma triEval (P Q R : Vec3) :
    compute_face_normal (polyMesh [P, Q, R]) 0 =
      Vec3.normalize (Vec3.cross (R - Q) (P - Q)) := by
  norm_num [compute_face_normal, polyMesh, List.getD]

/-- Claim C5: for a triangle read in halfedge order `A, B, C`, the face
normal is the normalized cross product `(C-B) x (A-B)`; it is unchanged
under cyclic relabeling of the vertices and flips sign when the winding
order is reversed. -/
theorem c5_triangle_face_normal :
    ∀ A B C : Vec3,
      compute_face_normal (polyMesh [A, B, C]) 0 =
        Vec3.normalize (Vec3.cross (C - B) (A - B)) ∧
      compute_face_normal (polyMesh [B, C, A]) 0 =
        compute_face_normal (polyMesh [A, B, C]) 0 ∧
      compute_face_normal (polyMesh [A, C, B]) 0 =
        -(compute_face_normal (polyMesh [A, B, C]) 0) := by
  intro A B C
  refine ⟨triEval A B C, ?_, ?_⟩
  · rw [triEval, triEval]
    have h1 : Vec3.cross (A - C) (B - C) = Vec3.cross (C - B) (A - B) := by
      ext <;> simp [Vec3.cross] <;> ring
    rw [h1]
  · rw [triEval, triEval]
    have h2 : Vec3.cross (B - C) (A - C) = -(Vec3.cross (C - B) (A - B)) := by
      ext <;> simp [Vec3.cross] <;> ring
    rw [h2, Vec3.normalizeNeg]

/-- On a polygon mesh, the general-polygon loop computes the running
accumulator plus the remaining Newell window terms. -/
lemma newellGoPoly (ps : List Vec3) (hk : 4 ≤ ps.length) :
    ∀ (r t : Nat) (acc : Vec3), 1 ≤ r → t + r = ps.length →
      newellGo (polyMesh ps) r 2 ((t + 2) % ps.length)
        (ps.getD (t % ps.length) 0) (ps.getD ((t + 1) % ps.length) 0)
        (ps.getD ((t + 2) % ps.length) 0) acc =
      acc + rangeSum (newellTerm ps) r t := by
  intro r
  induction r with
  | zero => intro t acc h1 _; omega
  | succ r ih =>
    intro t acc _ ht
    have hnext : (polyMesh ps).next ((t + 2) % ps.length) = (t + 3) % ps.length := by
      simp only [polyMesh]
      rw [Nat.mod_add_mod]
    have hterm : Vec3.cross
        (ps.getD ((t + 2) % ps.length) 0 - ps.getD ((t + 1) % ps.length) 0)
        (ps.getD (t % ps.length) 0 - ps.getD ((t + 1) % ps.length) 0) = newellTerm ps t := rfl
    rcases Nat.eq_zero_or_pos r with hr | hr
    · subst hr
      have h2 : t + 1 = ps.length := by omega
      have hstop : (t + 3) % ps.length = 2 := by
        have : t + 3 = ps.length + 2 := by omega
        rw [this, Nat.add_mod_left, Nat.mod_eq_of_lt (by omega)]
      simp only [newellGo, hnext, hterm, hstop, ite_self]
      simp only [rangeSum, Vec3.addZero]
    · have hne : (t + 3) % ps.length ≠ 2 := by
        rcases Nat.lt_or_ge (t + 3) ps.length with hlt | hge
        · rw [Nat.mod_eq_of_lt hlt]; omega
        · have : t + 3 = ps.length ∨ t + 3 = ps.length + 1 := by omega
          rcases this with h | h
          · rw [h, Nat.mod_self]; omega
          · rw [h, Nat.add_mod_left, Nat.mod_eq_of_lt (by omega)]; omega
      have hpos : (polyMesh ps).pos ((polyMesh ps).to_vertex ((t + 3) % ps.length)) =
          ps.getD ((t + 3) % ps.length) 0 := rfl
      have ihs := ih (t + 1) (acc + newellTerm ps t) hr (by omega)
      have e1 : t + 1 + 2 = t + 3 := by omega
      have e2 : t + 1 + 1 = t + 2 := by omega
      rw [e1, e2] at ihs
      simp only [newellGo, hnext, hterm, if_neg hne, hpos, ihs]
      simp only [rangeSum, Vec3.addAssoc]

/-- A sum of terms each parallel to `nu` is parallel to `nu`. -/
lemma rangeSumParallel (f : Nat → Vec3) (nu : Vec3) :
    ∀ (r t : Nat), (∀ j, t ≤ j → j < t + r → f j = (Vec3.dot (f j) nu) • nu) →
      rangeSum f r t = (Vec3.dot (rangeSum f r t) nu) • nu := by
  intro r
  induction r with
  | zero =>
    intro t _
    simp [rangeSum, Vec3.dotZeroLeft, Vec3.zeroSmul]
  | succ r ih =>
    intro t hj
    have hft := hj t le_rfl (by omega)
    have hrest := ih (t + 1) (fun j h1 h2 => hj j (by omega) (by omega))
    show f t + rangeSum f r (t + 1) =
      (Vec3.dot (f t + rangeSum f r (t + 1)) nu) • nu
    calc f t + rangeSum f r (t + 1)
        = (Vec3.dot (f t) nu) • nu + (Vec3.dot (rangeSum f r (t + 1)) nu) • nu := by
          rw [← hft, ← hrest]
      _ = (Vec3.dot (f t) nu + Vec3.dot (rangeSum f r (t + 1)) nu) • nu :=
          (Vec3.addSmul _ _ _).symm
      _ = (Vec3.dot (f t + rangeSum f r (t + 1)) nu) • nu := by rw [Vec3.dotAddLeft]

/-- A nonempty sum of terms with positive component along `nu` has a
positive component along `nu`. -/
lemma rangeSumPos (f : Nat → Vec3) (nu : Vec3) :
    ∀ (r t : Nat), 1 ≤ r → (∀ j, t ≤ j → j < t + r → 0 < Vec3.dot (f j) nu) →
      0 < Vec3.dot (rangeSum f r t) nu := by
  intro r
  induction r with
  | zero => intro t h1 _; omega
  | succ r ih =>
    intro t _ hj
    show 0 < Vec3.dot (f t + rangeSum f r (t + 1)) nu
    rw [Vec3.dotAddLeft]
    rcases Nat.eq_zero_or_pos r with hr | hr
    · subst hr
      have h1 := hj t le_rfl (by omega)
      simp only [rangeSum, Vec3.dotZeroLeft, add_zero]
      exact h1
    · have h1 := hj t le_rfl (by omega)
      have h2 := ih (t + 1) hr (fun j ha hb => hj j (by omega) (by omega))
      linarith

/-- A `getD` read at an in-range index is a member of the list. -/
lemma getDMemOfLt (ps : List Vec3) (i : Nat) (hi : i < ps.length) : ps.getD i 0 ∈ ps := by
  rw [ps.getD_eq_getElem 0 hi]
  exact List.getElem_mem hi

/-- The difference of two in-range polygon vertices is orthogonal to the
plane normal of a planar polygon. -/
lemma planarDiff (ps : List Vec3) (nu : Vec3) (d : ℝ)
    (hp : ∀ p ∈ ps, Vec3.dot p nu = d) {a b : Nat}
    (ha : a < ps.length) (hb : b < ps.length) :
    Vec3.dot (ps.getD a 0 - ps.getD b 0) nu = 0 := by
  rw [Vec3.dotSubLeft, hp _ (getDMemOfLt ps a ha), hp _ (getDMemOfLt ps b hb), sub_self]

/-- Every Newell window term of a planar polygon is parallel to the plane
normal. -/
lemma newellTermParallel (ps : List Vec3) (nu : Vec3) (d : ℝ) (hk : 0 < ps.length)
    (hnu : Vec3.dot nu nu = 1) (hp : ∀ p ∈ ps, Vec3.dot p nu = d) (i : Nat) :
    newellTerm ps i = (Vec3.dot (newellTerm ps i) nu) • nu :=
  Vec3.planarCross
    (planarDiff ps nu d hp (Nat.mod_lt _ hk) (Nat.mod_lt _ hk))
    (planarDiff ps nu d hp (Nat.mod_lt _ hk) (Nat.mod_lt _ hk)) hnu

/-- Every in-range fan term of a planar polygon is parallel to the plane
normal. -/
lemma fanTermParallel (ps : List Vec3) (nu : Vec3) (d : ℝ) (hk : 0 < ps.length)
    (hnu : Vec3.dot nu nu = 1) (hp : ∀ p ∈ ps, Vec3.dot p nu = d)
    {i : Nat} (hi : i + 1 < ps.length) :
    fanTerm ps i = (Vec3.dot (fanTerm ps i) nu) • nu :=
  Vec3.planarCross
    (planarDiff ps nu d hp (by omega) hk)
    (planarDiff ps nu d hp hi hk) hnu

/-- Claim C6: for a planar convex polygon with more than 3 vertices and
nonzero (positively oriented) area, the general-polygon Newell path of
`compute_face_normal` produces the same direction as the normalized
fan-triangulation sum.  Planarity is `dot p nu = d` for all vertices with
`nu` a unit plane normal, convexity is the positivity of every Newell
corner term along `nu`, and nonzero area is the positivity of the fan sum
along `nu`. -/
theorem c6_convex_polygon_newell_agrees_fan :
    ∀ (ps : List Vec3) (nu : Vec3) (d : ℝ), 4 ≤ ps.length →
      Vec3.dot nu nu = 1 →
      (∀ p ∈ ps, Vec3.dot p nu = d) →
      (∀ i, i < ps.length → 0 < Vec3.dot (newellTerm ps i) nu) →
      0 < Vec3.dot (fanSum ps) nu →
      compute_face_normal (polyMesh ps) 0 = Vec3.normalize (fanSum ps) := by
  intro ps nu d hlen hnu hplanar hconvex harea
  have hk0 : 0 < ps.length := by omega
  have hm1 : (1 : Nat) % ps.length = 1 := Nat.mod_eq_of_lt (by omega)
  have hm2 : (2 : Nat) % ps.length = 2 := Nat.mod_eq_of_lt (by omega)
  have hm3 : (3 : Nat) % ps.length = 3 := Nat.mod_eq_of_lt (by omega)
  have hL : compute_face_normal (polyMesh ps) 0 = Vec3.normalize (newellSum ps) := by
    have hgo := newellGoPoly ps hlen ps.length 0 0 (by omega) (by omega)
    simp only [Nat.zero_add, Nat.zero_mod, hm1, hm2] at hgo
    have ha : (polyMesh ps).fhalfedge 0 = 0 := rfl
    have hb : (polyMesh ps).next 0 = 1 := hm1
    have hc : (polyMesh ps).next 1 = 2 := hm2
    have hd2 : (polyMesh ps).next 2 = 3 := hm3
    have hposv : ∀ x, (polyMesh ps).pos ((polyMesh ps).to_vertex x) = ps.getD x 0 :=
      fun x => rfl
    have hnh : (polyMesh ps).nh = ps.length := rfl
    simp only [compute_face_normal, ha, hb, hc, hd2, hposv, hnh]
    rw [if_neg (by omega : ¬ (3 : Nat) = 0), hgo, Vec3.zeroAdd]
    rfl
  have hNpar : newellSum ps = (Vec3.dot (newellSum ps) nu) • nu :=
    rangeSumParallel _ nu ps.length 0
      (fun j _ _ => newellTermParallel ps nu d hk0 hnu hplanar j)
  have hNpos : 0 < Vec3.dot (newellSum ps) nu :=
    rangeSumPos _ nu ps.length 0 (by omega) (fun j _ hj => hconvex j (by omega))
  have hFpar : fanSum ps = (Vec3.dot (fanSum ps) nu) • nu :=
    rangeSumParallel _ nu (ps.length - 2) 1
      (fun j _ hj => fanTermParallel ps nu d hk0 hnu hplanar (by omega))
  rw [hL, hNpar, hFpar, Vec3.normalizeSmulPos hNpos hnu, Vec3.normalizeSmulPos harea hnu]

/-- Witness for claim C6: the unit square in the `z = 0` plane with plane
normal `(0,0,1)`. -/
theorem c6_convex_polygon_newell_agrees_fan_witness :
    compute_face_normal
        (polyMesh [Vec3.mk 0 0 0, Vec3.mk 1 0 0, Vec3.mk 1 1 0, Vec3.mk 0 1 0]) 0 =
      Vec3.normalize (fanSum [Vec3.mk 0 0 0, Vec3.mk 1 0 0, Vec3.mk 1 1 0, Vec3.mk 0 1 0]) := by
  apply c6_convex_polygon_newell_agrees_fan _ (Vec3.mk 0 0 1) 0
  · norm_num
  · norm_num [Vec3.dot]
  · intro p hp
    simp only [List.mem_cons, List.not_mem_nil, or_false] at hp
    rcases hp with h | h | h | h <;> subst h <;> norm_num [Vec3.dot]
  · intro i hi
    simp only [List.length_cons, List.length_nil] at hi
    interval_cases i <;>
      norm_num [newellTerm, Vec3.dot, Vec3.cross, List.getD]
  · norm_num [fanSum, rangeSum, fanTerm, Vec3.dot, Vec3.cross, List.getD, Vec3.addZero]

/-- The code takes `cos` of the crease angle without converting degrees to
radians; 100 interpreted in radians has a positive cosine. -/
lemma cos100pos : 0 < Real.cos 100 := by
  have hpi1 := Real.pi_gt_d6
  have hpi2 := Real.pi_lt_d6
  have h1 : Real.cos (100 - 32 * Real.pi) = Real.cos 100 := by
    have h2 := Real.cos_add_int_mul_two_pi (100 - 32 * Real.pi) 16
    rw [show (100 - 32 * Real.pi) + (16 : ℤ) * (2 * Real.pi) = 100 by push_cast; ring] at h2
    exact h2.symm
  rw [← h1]
  apply Real.cos_pos_of_mem_Ioo
  rw [Set.mem_Ioo]
  constructor <;> nlinarith

/-- The corner ring around halfedge 0 of the cube (to-vertex corner `v0`)
visits the bottom, left and front faces. -/
lemma cubeCornerRing : cornerRing cubeMesh 0 = [0, 21, 8] := by decide

/-- Contribution of the anchor (bottom) face at the cube corner with
crease threshold `cos 100`. -/
lemma cubeContrib0 :
    cnContrib cubeMesh (Vec3.mk 0 0 0) (Vec3.mk 0 0 (-1)) (Real.cos 100) 0 =
      Vec3.mk 0 0 (-(Real.pi / 2)) := by
  have hb0 : cubeMesh.hboundary 0 = false := rfl
  have hq1 : cubeMesh.pos (cubeMesh.to_vertex (cubeMesh.next 0)) = Vec3.mk 0 1 0 := rfl
  have hq2 : cubeMesh.pos (cubeMesh.from_vertex 0) = Vec3.mk 1 0 0 := rfl
  simp only [cnContrib, hb0, Bool.false_eq_true, if_false, hq1, hq2]
  have hs1 : Vec3.mk 0 1 0 - Vec3.mk 0 0 0 = Vec3.mk 0 1 0 := by ext <;> norm_num
  have hs2 : Vec3.mk 1 0 0 - Vec3.mk 0 0 0 = Vec3.mk 1 0 0 := by ext <;> norm_num
  rw [hs1, hs2]
  have hcr : Vec3.cross (Vec3.mk 0 1 0) (Vec3.mk 1 0 0) = Vec3.mk 0 0 (-1) := by
    ext <;> norm_num [Vec3.cross]
  rw [hcr]
  have hnrm : Vec3.norm (Vec3.mk 0 0 (-1)) = 1 := by
    rw [Vec3.norm,
      show Vec3.dot (Vec3.mk 0 0 (-1)) (Vec3.mk 0 0 (-1)) = 1 by norm_num [Vec3.dot],
      Real.sqrt_one]
  rw [hnrm]
  have hdots : Vec3.dot (Vec3.mk 0 1 0) (Vec3.mk 0 1 0) *
      Vec3.dot (Vec3.mk 1 0 0) (Vec3.mk 1 0 0) = 1 := by norm_num [Vec3.dot]
  rw [hdots, Real.sqrt_one]
  have hsm : ((1:ℝ) / 1) • Vec3.mk 0 0 (-1) = Vec3.mk 0 0 (-1) := by ext <;> norm_num
  rw [hsm]
  have hdotnf : Vec3.dot (Vec3.mk 0 0 (-1)) (Vec3.mk 0 0 (-1)) = 1 := by norm_num [Vec3.dot]
  rw [hdotnf]
  rw [if_pos ⟨one_pos, Real.cos_le_one 100, one_pos⟩]
  have hd12 : Vec3.dot (Vec3.mk 0 1 0) (Vec3.mk 1 0 0) = 0 := by norm_num [Vec3.dot]
  rw [hd12]
  have hcl : clampCos ((0:ℝ) / 1) = 0 := by norm_num [clampCos]
  rw [hcl, Real.arccos_zero]
  ext <;> norm_num

/-- Contribution of the left face at the cube corner with crease threshold
`cos 100`: rejected by the anchor test, since its normal is orthogonal to
the anchor normal and `cos 100 > 0`. -/
lemma cubeContrib21 :
    cnContrib cubeMesh (Vec3.mk 0 0 0) (Vec3.mk 0 0 (-1)) (Real.cos 100) 21 = 0 := by
  have hb0 : cubeMesh.hboundary 21 = false := rfl
  have hq1 : cubeMesh.pos (cubeMesh.to_vertex (cubeMesh.next 21)) = Vec3.mk 0 0 1 := rfl
  have hq2 : cubeMesh.pos (cubeMesh.from_vertex 21) = Vec3.mk 0 1 0 := rfl
  simp only [cnContrib, hb0, Bool.false_eq_true, if_false, hq1, hq2]
  have hs1 : Vec3.mk 0 0 1 - Vec3.mk 0 0 0 = Vec3.mk 0 0 1 := by ext <;> norm_num
  have hs2 : Vec3.mk 0 1 0 - Vec3.mk 0 0 0 = Vec3.mk 0 1 0 := by ext <;> norm_num
  rw [hs1, hs2]
  have hcr : Vec3.cross (Vec3.mk 0 0 1) (Vec3.mk 0 1 0) = Vec3.mk (-1) 0 0 := by
    ext <;> norm_num [Vec3.cross]
  rw [hcr]
  have hnrm : Vec3.norm (Vec3.mk (-1) 0 0) = 1 := by
    rw [Vec3.norm,
      show Vec3.dot (Vec3.mk (-1) 0 0) (Vec3.mk (-1) 0 0) = 1 by norm_num [Vec3.dot],
      Real.sqrt_one]
  rw [hnrm]
  have hsm : ((1:ℝ) / 1) • Vec3.mk (-1) 0 0 = Vec3.mk (-1) 0 0 := by ext <;> norm_num
  rw [hsm]
  have hdotnf : Vec3.dot (Vec3.mk (-1) 0 0) (Vec3.mk 0 0 (-1)) = 0 := by norm_num [Vec3.dot]
  rw [hdotnf]
  rw [if_neg]
  intro hcond
  exact absurd hcond.2.1 (not_le.mpr cos100pos)

/-- Contribution of the front face at the cube corner with crease
threshold `cos 100`: also rejected by the anchor test. -/
lemma cubeContrib8 :
    cnContrib cubeMesh (Vec3.mk 0 0 0) (Vec3.mk 0 0 (-1)) (Real.cos 100) 8 = 0 := by
  have hb0 : cubeMesh.hboundary 8 = false := rfl
  have hq1 : cubeMesh.pos (cubeMesh.to_vertex (cubeMesh.next 8)) = Vec3.mk 1 0 0 := rfl
  have hq2 : cubeMesh.pos (cubeMesh.from_vertex 8) = Vec3.mk 0 0 1 := rfl
  simp only [cnContrib, hb0, Bool.false_eq_true, if_false, hq1, hq2]
  have hs1 : Vec3.mk 1 0 0 - Vec3.mk 0 0 0 = Vec3.mk 1 0 0 := by ext <;> norm_num
  have hs2 : Vec3.mk 0 0 1 - Vec3.mk 0 0 0 = Vec3.mk 0 0 1 := by ext <;> norm_num
  rw [hs1, hs2]
  have hcr : Vec3.cross (Vec3.mk 1 0 0) (Vec3.mk 0 0 1) = Vec3.mk 0 (-1) 0 := by
    ext <;> norm_num [Vec3.cross]
  rw [hcr]
  have hnrm : Vec3.norm (Vec3.mk 0 (-1) 0) = 1 := by
    rw [Vec3.norm,
      show Vec3.dot (Vec3.mk 0 (-1) 0) (Vec3.mk 0 (-1) 0) = 1 by norm_num [Vec3.dot],
      Real.sqrt_one]
  rw [hnrm]
  have hsm : ((1:ℝ) / 1) • Vec3.mk 0 (-1) 0 = Vec3.mk 0 (-1) 0 := by ext <;> norm_num
  rw [hsm]
  have hdotnf : Vec3.dot (Vec3.mk 0 (-1) 0) (Vec3.mk 0 0 (-1)) = 0 := by norm_num [Vec3.dot]
  rw [hdotnf]
  rw [if_neg]
  intro hcond
  exact absurd hcond.2.1 (not_le.mpr cos100pos)

/-- At the cube corner halfedge 0 with crease angle 100, the code returns
the flat bottom-face normal `(0,0,-1)`. -/
lemma cubeCorner100 : compute_corner_normal cubeMesh 0 100 = Vec3.mk 0 0 (-1) := by
  rw [cornerGeneralEq cubeMesh 0 100 (by norm_num) (by norm_num)]
  have hb : cubeMesh.hboundary 0 = false := rfl
  have hP0 : cubeMesh.pos (cubeMesh.to_vertex 0) = Vec3.mk 0 0 0 := rfl
  have hq1 : cubeMesh.pos (cubeMesh.to_vertex (cubeMesh.next 0)) = Vec3.mk 0 1 0 := rfl
  have hq2 : cubeMesh.pos (cubeMesh.from_vertex 0) = Vec3.mk 1 0 0 := rfl
  simp only [specCornerNormal, hb, Bool.false_eq_true, if_false, hP0, hq1, hq2]
  have hs1 : Vec3.mk 0 1 0 - Vec3.mk 0 0 0 = Vec3.mk 0 1 0 := by ext <;> norm_num
  have hs2 : Vec3.mk 1 0 0 - Vec3.mk 0 0 0 = Vec3.mk 1 0 0 := by ext <;> norm_num
  rw [hs1, hs2]
  have hcr : Vec3.cross (Vec3.mk 0 1 0) (Vec3.mk 1 0 0) = Vec3.mk 0 0 (-1) := by
    ext <;> norm_num [Vec3.cross]
  rw [hcr]
  have hnf : Vec3.normalize (Vec3.mk 0 0 (-1)) = Vec3.mk 0 0 (-1) := by
    rw [normalizeEval _ 1 one_pos (by norm_num [Vec3.dot])]
    ext <;> norm_num
  rw [hnf, cubeCornerRing]
  simp only [List.map_cons, List.map_nil]
  rw [cubeContrib0, cubeContrib21, cubeContrib8, vsumCons, vsumCons, vsumCons, vsumNil]
  have hsum : Vec3.mk 0 0 (-(Real.pi / 2)) + ((0 : Vec3) + ((0 : Vec3) + 0)) =
      Vec3.mk 0 0 (-(Real.pi / 2)) := by ext <;> simp
  rw [hsum]
  have hpip : 0 < Real.pi / 2 := by positivity
  rw [normalizeEval _ (Real.pi / 2) hpip (by norm_num [Vec3.dot]; ring)]
  ext <;> field_simp <;> ring

/-- The (quad, Newell-path) face normal of the cube's bottom face. -/
lemma cubeFace0 : compute_face_normal cubeMesh 0 = Vec3.mk 0 0 (-1) := by
  have e0 : cubeMesh.fhalfedge 0 = 0 := rfl
  have e1 : cubeMesh.next 0 = 1 := rfl
  have e2 : cubeMesh.next 1 = 2 := rfl
  have e3 : cubeMesh.next 2 = 3 := rfl
  have eA : cubeMesh.next 3 = 0 := rfl
  have e4 : cubeMesh.nh = 24 := rfl
  have q0 : cubeMesh.pos (cubeMesh.to_vertex 0) = Vec3.mk 0 0 0 := rfl
  have q1 : cubeMesh.pos (cubeMesh.to_vertex 1) = Vec3.mk 0 1 0 := rfl
  have q2 : cubeMesh.pos (cubeMesh.to_vertex 2) = Vec3.mk 1 1 0 := rfl
  have q3 : cubeMesh.pos (cubeMesh.to_vertex 3) = Vec3.mk 1 0 0 := rfl
  have key : newellGo cubeMesh 24 2 2 (Vec3.mk 0 0 0) (Vec3.mk 0 1 0) (Vec3.mk 1 1 0) 0 =
      Vec3.mk 0 0 (-4) := by
    ext <;> norm_num [newellGo, e1, e2, e3, eA, q0, q1, q2, q3, Vec3.cross]
  simp only [compute_face_normal, e0, e1, e2, e3, e4, q0, q1, q2]
  rw [if_neg (by omega : ¬ (3 : Nat) = 0), key]
  rw [normalizeEval _ 4 (by norm_num) (by norm_num [Vec3.dot])]
  ext <;> norm_num

/-- Angle-weighted contribution of the front face in the vertex ring of
cube vertex 0. -/
lemma cubeVContrib9 :
    vnContrib cubeMesh (Vec3.mk 0 0 0) 9 = Vec3.mk 0 (-(Real.pi / 2)) 0 := by
  have hb0 : cubeMesh.hboundary 9 = false := rfl
  have hq1 : cubeMesh.pos (cubeMesh.to_vertex 9) = Vec3.mk 1 0 0 := rfl
  have hq2 : cubeMesh.pos (cubeMesh.from_vertex (cubeMesh.prev 9)) = Vec3.mk 0 0 1 := rfl
  simp only [vnContrib, hb0, Bool.false_eq_true, if_false, hq1, hq2]
  have hs1 : Vec3.mk 1 0 0 - Vec3.mk 0 0 0 = Vec3.mk 1 0 0 := by ext <;> norm_num
  have hs2 : Vec3.mk 0 0 1 - Vec3.mk 0 0 0 = Vec3.mk 0 0 1 := by ext <;> norm_num
  rw [hs1, hs2]
  have hdots : Vec3.dot (Vec3.mk 1 0 0) (Vec3.mk 1 0 0) *
      Vec3.dot (Vec3.mk 0 0 1) (Vec3.mk 0 0 1) = 1 := by norm_num [Vec3.dot]
  rw [hdots, Real.sqrt_one]
  have hcr : Vec3.cross (Vec3.mk 1 0 0) (Vec3.mk 0 0 1) = Vec3.mk 0 (-1) 0 := by
    ext <;> norm_num [Vec3.cross]
  rw [hcr]
  have hnrm : Vec3.norm (Vec3.mk 0 (-1) 0) = 1 := by
    rw [Vec3.norm,
      show Vec3.dot (Vec3.mk 0 (-1) 0) (Vec3.mk 0 (-1) 0) = 1 by norm_num [Vec3.dot],
      Real.sqrt_one]
  rw [hnrm, if_pos ⟨one_pos, one_pos⟩]
  have hd12 : Vec3.dot (Vec3.mk 1 0 0) (Vec3.mk 0 0 1) = 0 := by norm_num [Vec3.dot]
  rw [hd12]
  have hcl : clampCos ((0:ℝ) / 1) = 0 := by norm_num [clampCos]
  rw [hcl, Real.arccos_zero]
  ext <;> norm_num

/-- Angle-weighted contribution of the bottom face in the vertex ring of
cube vertex 0. -/
lemma cubeVContrib1 :
    vnContrib cubeMesh (Vec3.mk 0 0 0) 1 = Vec3.mk 0 0 (-(Real.pi / 2)) := by
  have hb0 : cubeMesh.hboundary 1 = false := rfl
  have hq1 : cubeMesh.pos (cubeMesh.to_vertex 1) = Vec3.mk 0 1 0 := rfl
  have hq2 : cubeMesh.pos (cubeMesh.from_vertex (cubeMesh.prev 1)) = Vec3.mk 1 0 0 := rfl
  simp only [vnContrib, hb0, Bool.false_eq_true, if_false, hq1, hq2]
  have hs1 : Vec3.mk 0 1 0 - Vec3.mk 0 0 0 = Vec3.mk 0 1 0 := by ext <;> norm_num
  have hs2 : Vec3.mk 1 0 0 - Vec3.mk 0 0 0 = Vec3.mk 1 0 0 := by ext <;> norm_num
  rw [hs1, hs2]
  have hdots : Vec3.dot (Vec3.mk 0 1 0) (Vec3.mk 0 1 0) *
      Vec3.dot (Vec3.mk 1 0 0) (Vec3.mk 1 0 0) = 1 := by norm_num [Vec3.dot]
  rw [hdots, Real.sqrt_one]
  have hcr : Vec3.cross (Vec3.mk 0 1 0) (Vec3.mk 1 0 0) = Vec3.mk 0 0 (-1) := by
    ext <;> norm_num [Vec3.cross]
  rw [hcr]
  have hnrm : Vec3.norm (Vec3.mk 0 0 (-1)) = 1 := by
    rw [Vec3.norm,
      show Vec3.dot (Vec3.mk 0 0 (-1)) (Vec3.mk 0 0 (-1)) = 1 by norm_num [Vec3.dot],
      Real.sqrt_one]
  rw [hnrm, if_pos ⟨one_pos, one_pos⟩]
  have hd12 : Vec3.dot (Vec3.mk 0 1 0) (Vec3.mk 1 0 0) = 0 := by norm_num [Vec3.dot]
  rw [hd12]
  have hcl : clampCos ((0:ℝ) / 1) = 0 := by norm_num [clampCos]
  rw [hcl, Real.arccos_zero]
  ext <;> norm_num

/-- Angle-weighted contribution of the left face in the vertex ring of
cube vertex 0. -/
lemma cubeVContrib22 :
    vnContrib cubeMesh (Vec3.mk 0 0 0) 22 = Vec3.mk (-(Real.pi / 2)) 0 0 := by
  have hb0 : cubeMesh.hboundary 22 = false := rfl
  have hq1 : cubeMesh.pos (cubeMesh.to_vertex 22) = Vec3.mk 0 0 1 := rfl
  have hq2 : cubeMesh.pos (cubeMesh.from_vertex (cubeMesh.prev 22)) = Vec3.mk 0 1 0 := rfl
  simp only [vnContrib, hb0, Bool.false_eq_true, if_false, hq1, hq2]
  have hs1 : Vec3.mk 0 0 1 - Vec3.mk 0 0 0 = Vec3.mk 0 0 1 := by ext <;> norm_num
  have hs2 : Vec3.mk 0 1 0 - Vec3.mk 0 0 0 = Vec3.mk 0 1 0 := by ext <;> norm_num
  rw [hs1, hs2]
  have hdots : Vec3.dot (Vec3.mk 0 0 1) (Vec3.mk 0 0 1) *
      Vec3.dot (Vec3.mk 0 1 0) (Vec3.mk 0 1 0) = 1 := by norm_num [Vec3.dot]
  rw [hdots, Real.sqrt_one]
  have hcr : Vec3.cross (Vec3.mk 0 0 1) (Vec3.mk 0 1 0) = Vec3.mk (-1) 0 0 := by
    ext <;> norm_num [Vec3.cross]
  rw [hcr]
  have hnrm : Vec3.norm (Vec3.mk (-1) 0 0) = 1 := by
    rw [Vec3.norm,
      show Vec3.dot (Vec3.mk (-1) 0 0) (Vec3.mk (-1) 0 0) = 1 by norm_num [Vec3.dot],
      Real.sqrt_one]
  rw [hnrm, if_pos ⟨one_pos, one_pos⟩]
  have hd12 : Vec3.dot (Vec3.mk 0 0 1) (Vec3.mk 0 1 0) = 0 := by norm_num [Vec3.dot]
  rw [hd12]
  have hcl : clampCos ((0:ℝ) / 1) = 0 := by norm_num [clampCos]
  rw [hcl, Real.arccos_zero]
  ext <;> norm_num

/-- The smoothed vertex normal at cube vertex 0 in unnormalized closed
form. -/
lemma cubeVertex0 :
    compute_vertex_normal cubeMesh 0 =
      Vec3.normalize (Vec3.mk (-(Real.pi / 2)) (-(Real.pi / 2)) (-(Real.pi / 2))) := by
  have hv : cubeMesh.vhalfedge 0 = some 9 := rfl
  simp only [compute_vertex_normal, hv]
  rw [walkAccumEqSum cubeMesh.cw_rotated_halfedge _ _
    (vnBodyContrib cubeMesh (cubeMesh.pos 0)), Vec3.zeroAdd]
  have hP0 : cubeMesh.pos 0 = Vec3.mk 0 0 0 := rfl
  rw [hP0]
  have hring : cycleFrom cubeMesh.cw_rotated_halfedge cubeMesh.nh 9 9 = [9, 1, 22] := by
    decide
  rw [hring]
  simp only [List.map_cons, List.map_nil]
  rw [cubeVContrib9, cubeVContrib1, cubeVContrib22, vsumCons, vsumCons, vsumCons, vsumNil]
  congr 1
  ext <;> simp

/-- Claim C2 evaluation at the failing input: at the cube corner halfedge
0 with crease angle 100 (all dihedral angles 90 degrees), the code returns
the flat face normal of the corner's face, not the fully smoothed vertex
normal the claim requires, because `cos(100)` is evaluated in radians and
is positive, excluding both neighboring faces from the average. -/
theorem c2_cube_crease100_returns_flat_normal :
    compute_corner_normal cubeMesh 0 100 = Vec3.mk 0 0 (-1) ∧
    compute_corner_normal cubeMesh 0 100 = compute_face_normal cubeMesh (cubeMesh.hface 0) ∧
    compute_corner_normal cubeMesh 0 100 ≠
      compute_vertex_normal cubeMesh (cubeMesh.to_vertex 0) := by
  have hface : cubeMesh.hface 0 = 0 := rfl
  refine ⟨cubeCorner100, ?_, ?_⟩
  · rw [cubeCorner100, hface, cubeFace0]
  · rw [cubeCorner100, show cubeMesh.to_vertex 0 = 0 from rfl, cubeVertex0]
    intro hE
    have hd : Vec3.dot (Vec3.mk (-(Real.pi / 2)) (-(Real.pi / 2)) (-(Real.pi / 2)))
        (Vec3.mk (-(Real.pi / 2)) (-(Real.pi / 2)) (-(Real.pi / 2))) =
        3 * (Real.pi / 2) ^ 2 := by
      norm_num [Vec3.dot]; ring
    have hnp : 0 < Vec3.norm (Vec3.mk (-(Real.pi / 2)) (-(Real.pi / 2)) (-(Real.pi / 2))) := by
      rw [Vec3.norm, hd]
      exact Real.sqrt_pos.mpr (by positivity)
    have hx := congrArg Vec3.x hE
    rw [Vec3.normalize, if_pos hnp] at hx
    simp only [Vec3.smul_x, Vec3.mk_x] at hx
    have h1 : 0 < 1 / Vec3.norm (Vec3.mk (-(Real.pi / 2)) (-(Real.pi / 2)) (-(Real.pi / 2))) :=
      by positivity
    have h2 : 1 / Vec3.norm (Vec3.mk (-(Real.pi / 2)) (-(Real.pi / 2)) (-(Real.pi / 2))) *
        (-(Real.pi / 2)) < 0 :=
      mul_neg_of_pos_of_neg h1 (by nlinarith [Real.pi_pos])
    linarith [hx, h2]
